import Mathlib

set_option linter.unusedSectionVars false

/-!
Verification of the `atlas3d` allocator (`src/lib.rs`).

The source stores coordinates in `glam::UVec3` (three `u32` components).
We model components as `Nat`: every subtraction in the source is guarded so
that the minuend dominates (the page-bounds check, and explicit `>`
comparisons), where truncated `Nat` subtraction agrees with `u32`
subtraction.  Where `u32` *addition* overflow is itself at issue — `measure`
adds a caller-supplied `size` to a candidate position with no guard — a
second set of definitions (suffix `W`) repeats the same code with every
`u32` operation taken explicitly mod `2^32`, the release-build wrapping
semantics (a debug build panics on the same inputs).

The source's `HashMap<H, AtlasInfo>` is modelled as an association list
`List (H × AtlasInfo)`: a finite map together with one concrete iteration
order (the `HashMap` iteration order is unspecified; the allocator only
relies on it for tie-breaking between equally good candidates, which the
spec likewise leaves order-relative).  `HashMap::insert`, `remove`, `get`
become `mapInsert`, `mapRemove`, `mapGet` below.
-/

namespace Atlas3d

/-- Three-component unsigned vector, as in `glam::UVec3`. -/
structure UVec3 where
  x : Nat
  y : Nat
  z : Nat
deriving DecidableEq, Repr

/-- Componentwise boolean vector, as in `glam::BVec3` (result of `cmplt` etc.). -/
structure BVec3 where
  x : Bool
  y : Bool
  z : Bool
deriving DecidableEq, Repr

instance : Add UVec3 := ⟨fun a b => ⟨a.x + b.x, a.y + b.y, a.z + b.z⟩⟩

-- Truncated on Nat; every use site in the source first establishes that the
-- minuend dominates componentwise.
instance : Sub UVec3 := ⟨fun a b => ⟨a.x - b.x, a.y - b.y, a.z - b.z⟩⟩

instance : Mul UVec3 := ⟨fun a b => ⟨a.x * b.x, a.y * b.y, a.z * b.z⟩⟩

def UVec3.ZERO : UVec3 := ⟨0, 0, 0⟩

def UVec3.X : UVec3 := ⟨1, 0, 0⟩

def UVec3.Y : UVec3 := ⟨0, 1, 0⟩

def UVec3.Z : UVec3 := ⟨0, 0, 1⟩

def UVec3.cmplt (a b : UVec3) : BVec3 :=
  ⟨decide (a.x < b.x), decide (a.y < b.y), decide (a.z < b.z)⟩

def UVec3.cmpgt (a b : UVec3) : BVec3 :=
  ⟨decide (a.x > b.x), decide (a.y > b.y), decide (a.z > b.z)⟩

def BVec3.band (a b : BVec3) : BVec3 := ⟨a.x && b.x, a.y && b.y, a.z && b.z⟩

def BVec3.all (a : BVec3) : Bool := a.x && a.y && a.z

def BVec3.any (a : BVec3) : Bool := a.x || a.y || a.z

/-- Placement record `AtlasInfo { size, position }` from the source. -/
structure AtlasInfo where
  size : UVec3
  position : UVec3
deriving DecidableEq, Repr

/-- Result `Slot` of an insertion attempt. -/
inductive Slot where
  | NoFit : Slot
  | New : UVec3 → Slot
  | Existing : UVec3 → Slot
deriving DecidableEq, Repr

section Maps

variable {H : Type} [DecidableEq H]

/-- Model of `HashMap::get`: the value stored at key `h`, if any. -/
def mapGet (m : List (H × AtlasInfo)) (h : H) : Option AtlasInfo :=
  match m with
  | [] => none
  | (k, v) :: rest => if k = h then some v else mapGet rest h

/-- Model of `HashMap::remove`: drop the entry keyed `h`. -/
def mapRemove (m : List (H × AtlasInfo)) (h : H) : List (H × AtlasInfo) :=
  m.filter (fun e => decide (e.1 ≠ h))

/-- Model of `HashMap::insert`: bind key `h` to `v`, replacing any previous binding. -/
def mapInsert (h : H) (v : AtlasInfo) (m : List (H × AtlasInfo)) : List (H × AtlasInfo) :=
  (h, v) :: mapRemove m h

/-- The keys of a map. -/
def keys (m : List (H × AtlasInfo)) : List H := m.map Prod.fst

end Maps

/-- `AtlasPage` from the source: page dimensions plus the live and dead
generations of entries. -/
structure AtlasPage (H : Type) where
  dim : UVec3
  live_items : List (H × AtlasInfo)
  dead_items : List (H × AtlasInfo)
deriving DecidableEq, Repr

namespace AtlasPage

variable {H : Type} [DecidableEq H]

/-- Constructor `AtlasPage::new`. -/
def new (dim : UVec3) : AtlasPage H := ⟨dim, [], []⟩

/-- The live-items loop of `AtlasPage::measure` (lines 112–142): walk the
live entries; an entry whose box intersects the candidate box on all three
axes makes the candidate infeasible (`None`); otherwise entries intersecting
on exactly two axes and lying beyond the candidate on the third tighten the
per-axis `distance`. -/
def measureLive (new_lhs new_rhs : UVec3) :
    UVec3 → List (H × AtlasInfo) → Option UVec3
  | distance, [] => some distance
  | distance, (_, current_item) :: rest =>
    let cur_lhs := current_item.position
    let cur_rhs := current_item.position + current_item.size
    let intersects := (new_lhs.cmplt cur_rhs).band (new_rhs.cmpgt cur_lhs)
    if intersects.all then
      none
    else
      let distance1 :=
        if intersects.y && intersects.z && decide (cur_lhs.x > new_rhs.x) then
          let distance_x := cur_lhs.x - new_rhs.x
          if distance_x < distance.x then { distance with x := distance_x } else distance
        else distance
      let distance2 :=
        if intersects.x && intersects.z && decide (cur_lhs.y > new_rhs.y) then
          let distance_y := cur_lhs.y - new_rhs.y
          if distance_y < distance1.y then { distance1 with y := distance_y } else distance1
        else distance1
      let distance3 :=
        if intersects.x && intersects.y && decide (cur_lhs.z > new_rhs.z) then
          let distance_z := cur_lhs.z - new_rhs.z
          if distance_z < distance2.z then { distance2 with z := distance_z } else distance2
        else distance2
      measureLive new_lhs new_rhs distance3 rest

/-- The dead-items loop of `AtlasPage::measure` (lines 144–154): collect the
handles of dead entries whose box intersects the candidate box on all axes. -/
def collectDead (new_lhs new_rhs : UVec3) (dead : List (H × AtlasInfo)) : List H :=
  dead.filterMap (fun e =>
    let cur_lhs := e.2.position
    let cur_rhs := e.2.position + e.2.size
    let intersects := (new_lhs.cmplt cur_rhs).band (new_rhs.cmpgt cur_lhs)
    if intersects.all then some e.1 else none)

/-- Full `AtlasPage::measure`: feasibility, boundary-distance cost, and eviction
set for placing a box of `size` at `pos`. -/
def measure (p : AtlasPage H) (pos size : UVec3) : Option (Nat × List H) :=
  if ((pos + size).cmpgt p.dim).any then none
  else
    match measureLive pos (pos + size) (p.dim - pos - size) p.live_items with
    | none => none
    | some distance =>
      some (distance.x + distance.y + distance.z, collectDead pos (pos + size) p.dead_items)

/-- The three advancing-corner candidate points of one entry
(`item.position + item.size * UVec3::X`, etc.). -/
def cornerPoints (item : AtlasInfo) : List UVec3 :=
  [ item.position + item.size * UVec3.X
  , item.position + item.size * UVec3.Y
  , item.position + item.size * UVec3.Z ]

/-- The corner points contributed by a list of entries, in list order. -/
def allCorners : List (H × AtlasInfo) → List UVec3
  | [] => []
  | (_, item) :: rest => cornerPoints item ++ allCorners rest

/-- The candidate list built by `insert` (lines 178–192): the origin, then
the corners of every live entry, then the corners of every dead entry. -/
def insertPoints (p : AtlasPage H) : List UVec3 :=
  UVec3.ZERO :: (allCorners p.live_items ++ allCorners p.dead_items)

/-- Strict lexicographic order on (eviction count, distance) pairs — the
replacement condition `len < best_len || len == best_len && dist < best_dist`
of line 196. -/
def lexLt (a b : Nat × Nat) : Prop := a.1 < b.1 ∨ (a.1 = b.1 ∧ a.2 < b.2)

instance (a b : Nat × Nat) : Decidable (lexLt a b) := by
  unfold lexLt; infer_instance

/-- One step of the best-candidate scan (lines 194–205).  The source seeds
`best_distance`/`best_evict_count` with `u32::MAX`/`usize::MAX` sentinels and
`best_point = None`; since a real eviction list is always shorter than
`usize::MAX`, the first feasible candidate always replaces the sentinel, so
the sentinel state is rendered as `none`. -/
def searchStep (p : AtlasPage H) (size : UVec3)
    (st : Option (UVec3 × Nat × List H)) (insert_point : UVec3) :
    Option (UVec3 × Nat × List H) :=
  match p.measure insert_point size with
  | none => st
  | some (insert_distance, insert_evictions) =>
    match st with
    | none => some (insert_point, insert_distance, insert_evictions)
    | some (best_point, best_distance, best_evictions) =>
      if lexLt (insert_evictions.length, insert_distance)
               (best_evictions.length, best_distance) then
        some (insert_point, insert_distance, insert_evictions)
      else
        some (best_point, best_distance, best_evictions)

/-- Scan the candidate list, keeping the best feasible candidate seen. -/
def selectBest (p : AtlasPage H) (size : UVec3)
    (st : Option (UVec3 × Nat × List H)) :
    List UVec3 → Option (UVec3 × Nat × List H)
  | [] => st
  | q :: rest => selectBest p size (searchStep p size st q) rest

/-- The search-and-commit tail of `insert` (lines 175–217): generate
candidates, pick the best, and on success add the new live entry and purge
the evicted dead handles. -/
def searchAndCommit (p : AtlasPage H) (handle : H) (size : UVec3) :
    Slot × AtlasPage H :=
  match selectBest p size none (insertPoints p) with
  | some (position, _, evictions) =>
    ( Slot.New position
    , { p with
        live_items := mapInsert handle ⟨size, position⟩ p.live_items
        dead_items := evictions.foldl (fun dead item => mapRemove dead item) p.dead_items } )
  | none => (Slot.NoFit, p)

/-- Entry point `AtlasPage::insert`.  The result is `none` exactly when the source's
`assert_eq!(size, info.size)` on a live hit fails, which aborts the process;
otherwise `some (slot, page_after)`. -/
def insert (p : AtlasPage H) (handle : H) (size : UVec3) :
    Option (Slot × AtlasPage H) :=
  match mapGet p.live_items handle with
  | some info =>
    if size = info.size then some (Slot.Existing info.position, p)
    else none
  | none =>
    match mapGet p.dead_items handle with
    | some info =>
      if size = info.size then
        -- back from the dead
        some ( Slot.Existing info.position
             , { p with
                 live_items := mapInsert handle info p.live_items
                 dead_items := mapRemove p.dead_items handle } )
      else
        -- otherwise remove from dead and carry on
        some (searchAndCommit { p with dead_items := mapRemove p.dead_items handle } handle size)
    | none => some (searchAndCommit p handle size)

/-- Lookup `AtlasPage::get`. -/
def get (p : AtlasPage H) (handle : H) : Option AtlasInfo :=
  mapGet p.live_items handle

/-- Soft delete `AtlasPage::remove`: mark as dead, keep around in case it gets added back. -/
def remove (p : AtlasPage H) (handle : H) : AtlasPage H :=
  match mapGet p.live_items handle with
  | some info =>
    { p with
      live_items := mapRemove p.live_items handle
      dead_items := mapInsert handle info p.dead_items }
  | none => p

/-- Hard delete `AtlasPage::purge`: remove without keeping in reserve. -/
def purge (p : AtlasPage H) (handle : H) : AtlasPage H :=
  { p with
    live_items := mapRemove p.live_items handle
    dead_items := mapRemove p.dead_items handle }

/-- Bulk soft delete `AtlasPage::remove_all`: mark all handles as dead. -/
def remove_all (p : AtlasPage H) : AtlasPage H :=
  { p with
    live_items := []
    dead_items := p.live_items.foldl (fun dead e => mapInsert e.1 e.2 dead) p.dead_items }

/-- Bulk hard delete `AtlasPage::purge_all`. -/
def purge_all (p : AtlasPage H) : AtlasPage H :=
  { p with live_items := [], dead_items := [] }

end AtlasPage

/-- One public mutating operation on a page. -/
inductive Op (H : Type) where
  | insert : H → UVec3 → Op H
  | remove : H → Op H
  | purge : H → Op H
  | removeAll : Op H
  | purgeAll : Op H
deriving DecidableEq, Repr

variable {H : Type} [DecidableEq H]

/-- Apply one operation; `none` when an `insert` hits the live-size assertion. -/
def applyOp (p : AtlasPage H) : Op H → Option (AtlasPage H)
  | .insert h size => (p.insert h size).map Prod.snd
  | .remove h => some (p.remove h)
  | .purge h => some (p.purge h)
  | .removeAll => some p.remove_all
  | .purgeAll => some p.purge_all

/-- Run a sequence of operations from a starting page. -/
def runOps (p : AtlasPage H) : List (Op H) → Option (AtlasPage H)
  | [] => some p
  | op :: rest =>
    match applyOp p op with
    | some p2 => runOps p2 rest
    | none => none

/-- A page state reachable from `AtlasPage.new dim` by some operation
sequence (every intermediate state of a run is itself of this form, at the
corresponding prefix). -/
def Reachable (dim : UVec3) (p : AtlasPage H) : Prop :=
  ∃ ops : List (Op H), runOps (AtlasPage.new dim) ops = some p

/-- Bounds predicate `position + size ≤ dim` componentwise — spec Invariant 2. -/
def inBounds (dim : UVec3) (i : AtlasInfo) : Prop :=
  i.position.x + i.size.x ≤ dim.x ∧
  i.position.y + i.size.y ≤ dim.y ∧
  i.position.z + i.size.z ≤ dim.z

/-- The source's box-intersection test (`new_lhs.cmplt(cur_rhs) &
new_rhs.cmpgt(cur_lhs)` on all axes), as a proposition on two entries. -/
def boxesIntersect (a b : AtlasInfo) : Prop :=
  (a.position.x < b.position.x + b.size.x ∧ b.position.x < a.position.x + a.size.x) ∧
  (a.position.y < b.position.y + b.size.y ∧ b.position.y < a.position.y + a.size.y) ∧
  (a.position.z < b.position.z + b.size.z ∧ b.position.z < a.position.z + a.size.z)

instance (a b : AtlasInfo) : Decidable (boxesIntersect a b) := by
  unfold boxesIntersect; infer_instance

/-- Membership of a point in the half-open box `[position, position+size)`. -/
def inBox (i : AtlasInfo) (q : UVec3) : Prop :=
  (i.position.x ≤ q.x ∧ q.x < i.position.x + i.size.x) ∧
  (i.position.y ≤ q.y ∧ q.y < i.position.y + i.size.y) ∧
  (i.position.z ≤ q.z ∧ q.z < i.position.z + i.size.z)

/-- All entries of a page, live then dead. -/
def entries (p : AtlasPage H) : List (H × AtlasInfo) :=
  p.live_items ++ p.dead_items

/-- The allocator's inductive invariant: fixed dimensions, no duplicate
handle anywhere (so the two generations are key-disjoint), every entry in
bounds, and no two entries' boxes intersecting — live or dead. -/
def Inv (dim : UVec3) (p : AtlasPage H) : Prop :=
  p.dim = dim ∧
  (keys (entries p)).Nodup ∧
  (∀ e ∈ entries p, inBounds dim e.2) ∧
  (entries p).Pairwise (fun e1 e2 => ¬ boxesIntersect e1.2 e2.2)

/-- A 10×10×10 page dimension, matching the source's tests. -/
def dimW : UVec3 := ⟨10, 10, 10⟩

/-- The page reached from `new dimW` by `insert 0 (2,2,2); insert 1 (2,2,2)`. -/
def pageTwoLive : AtlasPage Nat :=
  ⟨dimW, [(1, ⟨⟨2, 2, 2⟩, ⟨2, 0, 0⟩⟩), (0, ⟨⟨2, 2, 2⟩, ⟨0, 0, 0⟩⟩)], []⟩

/-- The page reached from `new dimW` by `insert 0 (1,1,1); remove 0`. -/
def pageOneDead : AtlasPage Nat :=
  ⟨dimW, [], [(0, ⟨⟨1, 1, 1⟩, ⟨0, 0, 0⟩⟩)]⟩

/-- The page reached from `new dimW` by
`insert 0 (2,2,2); insert 1 (2,2,2); remove 0`. -/
def pageLiveDead : AtlasPage Nat :=
  ⟨dimW, [(1, ⟨⟨2, 2, 2⟩, ⟨2, 0, 0⟩⟩)], [(0, ⟨⟨2, 2, 2⟩, ⟨0, 0, 0⟩⟩)]⟩

/-!
Wrapping-`u32` (release-build) semantics.  The definitions above widen `u32`
to `Nat`; that is harmless wherever the source's own guards keep every
intermediate value below `2^32`, but `measure`'s `pos + size` takes a
caller-supplied `size` with no such guard, so overflow there is real program
behaviour (wrap-around in a release build, a panic in a debug build).  The
`…W` definitions below repeat the same code with every `u32` operation taken
explicitly mod `2^32`, for the claims in which this wrap-around matters.
-/

/-- Wrapping `u32` addition: `(a + b) % 2^32`. -/
def wadd (a b : Nat) : Nat := (a + b) % 4294967296

/-- Wrapping `u32` subtraction: `(a - b) % 2^32`. -/
def wsub (a b : Nat) : Nat :=
  (a % 4294967296 + 4294967296 - b % 4294967296) % 4294967296

/-- Wrapping `u32` multiplication: `(a * b) % 2^32`. -/
def wmul (a b : Nat) : Nat := (a * b) % 4294967296

/-- Componentwise wrapping addition on `UVec3`. -/
def UVec3.addw (a b : UVec3) : UVec3 := ⟨wadd a.x b.x, wadd a.y b.y, wadd a.z b.z⟩

/-- Componentwise wrapping subtraction on `UVec3`. -/
def UVec3.subw (a b : UVec3) : UVec3 := ⟨wsub a.x b.x, wsub a.y b.y, wsub a.z b.z⟩

/-- Componentwise wrapping multiplication on `UVec3`. -/
def UVec3.mulw (a b : UVec3) : UVec3 := ⟨wmul a.x b.x, wmul a.y b.y, wmul a.z b.z⟩

/-- Wrapping-`u32` rendering of the live-items loop of `AtlasPage::measure`. -/
def AtlasPage.measureLiveW (new_lhs new_rhs : UVec3) :
    UVec3 → List (H × AtlasInfo) → Option UVec3
  | distance, [] => some distance
  | distance, (_, current_item) :: rest =>
    let cur_lhs := current_item.position
    let cur_rhs := current_item.position.addw current_item.size
    let intersects := (new_lhs.cmplt cur_rhs).band (new_rhs.cmpgt cur_lhs)
    if intersects.all then
      none
    else
      let distance1 :=
        if intersects.y && intersects.z && decide (cur_lhs.x > new_rhs.x) then
          let distance_x := wsub cur_lhs.x new_rhs.x
          if distance_x < distance.x then { distance with x := distance_x } else distance
        else distance
      let distance2 :=
        if intersects.x && intersects.z && decide (cur_lhs.y > new_rhs.y) then
          let distance_y := wsub cur_lhs.y new_rhs.y
          if distance_y < distance1.y then { distance1 with y := distance_y } else distance1
        else distance1
      let distance3 :=
        if intersects.x && intersects.y && decide (cur_lhs.z > new_rhs.z) then
          let distance_z := wsub cur_lhs.z new_rhs.z
          if distance_z < distance2.z then { distance2 with z := distance_z } else distance2
        else distance2
      AtlasPage.measureLiveW new_lhs new_rhs distance3 rest

/-- Wrapping-`u32` rendering of the dead-items loop of `AtlasPage::measure`. -/
def AtlasPage.collectDeadW (new_lhs new_rhs : UVec3)
    (dead : List (H × AtlasInfo)) : List H :=
  dead.filterMap (fun e =>
    let cur_lhs := e.2.position
    let cur_rhs := e.2.position.addw e.2.size
    let intersects := (new_lhs.cmplt cur_rhs).band (new_rhs.cmpgt cur_lhs)
    if intersects.all then some e.1 else none)

/-- Wrapping-`u32` rendering of `AtlasPage::measure`. -/
def AtlasPage.measureW (p : AtlasPage H) (pos size : UVec3) : Option (Nat × List H) :=
  if ((pos.addw size).cmpgt p.dim).any then none
  else
    match AtlasPage.measureLiveW pos (pos.addw size)
        ((p.dim.subw pos).subw size) p.live_items with
    | none => none
    | some distance =>
      some (wadd (wadd distance.x distance.y) distance.z,
        AtlasPage.collectDeadW pos (pos.addw size) p.dead_items)

/-- Wrapping-`u32` rendering of one entry's three corner candidates. -/
def AtlasPage.cornerPointsW (item : AtlasInfo) : List UVec3 :=
  [ item.position.addw (item.size.mulw UVec3.X)
  , item.position.addw (item.size.mulw UVec3.Y)
  , item.position.addw (item.size.mulw UVec3.Z) ]

/-- Wrapping-`u32` rendering of the corner points of a list of entries. -/
def AtlasPage.allCornersW : List (H × AtlasInfo) → List UVec3
  | [] => []
  | (_, item) :: rest => AtlasPage.cornerPointsW item ++ AtlasPage.allCornersW rest

/-- Wrapping-`u32` rendering of the candidate list built by `insert`. -/
def AtlasPage.insertPointsW (p : AtlasPage H) : List UVec3 :=
  UVec3.ZERO :: (AtlasPage.allCornersW p.live_items ++ AtlasPage.allCornersW p.dead_items)

/-- Wrapping-`u32` rendering of one step of the best-candidate scan. -/
def AtlasPage.searchStepW (p : AtlasPage H) (size : UVec3)
    (st : Option (UVec3 × Nat × List H)) (insert_point : UVec3) :
    Option (UVec3 × Nat × List H) :=
  match p.measureW insert_point size with
  | none => st
  | some (insert_distance, insert_evictions) =>
    match st with
    | none => some (insert_point, insert_distance, insert_evictions)
    | some (best_point, best_distance, best_evictions) =>
      if AtlasPage.lexLt (insert_evictions.length, insert_distance)
          (best_evictions.length, best_distance) then
        some (insert_point, insert_distance, insert_evictions)
      else
        some (best_point, best_distance, best_evictions)

/-- Wrapping-`u32` rendering of the best-candidate scan. -/
def AtlasPage.selectBestW (p : AtlasPage H) (size : UVec3)
    (st : Option (UVec3 × Nat × List H)) :
    List UVec3 → Option (UVec3 × Nat × List H)
  | [] => st
  | q :: rest => AtlasPage.selectBestW p size (AtlasPage.searchStepW p size st q) rest

/-- Wrapping-`u32` rendering of the search-and-commit tail of `insert`. -/
def AtlasPage.searchAndCommitW (p : AtlasPage H) (handle : H) (size : UVec3) :
    Slot × AtlasPage H :=
  match AtlasPage.selectBestW p size none (AtlasPage.insertPointsW p) with
  | some (position, _, evictions) =>
    ( Slot.New position
    , { p with
        live_items := mapInsert handle ⟨size, position⟩ p.live_items
        dead_items := evictions.foldl (fun dead item => mapRemove dead item) p.dead_items } )
  | none => (Slot.NoFit, p)

/-- Wrapping-`u32` rendering of `AtlasPage::insert`. -/
def AtlasPage.insertW (p : AtlasPage H) (handle : H) (size : UVec3) :
    Option (Slot × AtlasPage H) :=
  match mapGet p.live_items handle with
  | some info =>
    if size = info.size then some (Slot.Existing info.position, p)
    else none
  | none =>
    match mapGet p.dead_items handle with
    | some info =>
      if size = info.size then
        some ( Slot.Existing info.position
             , { p with
                 live_items := mapInsert handle info p.live_items
                 dead_items := mapRemove p.dead_items handle } )
      else
        some (AtlasPage.searchAndCommitW
          { p with dead_items := mapRemove p.dead_items handle } handle size)
    | none => some (AtlasPage.searchAndCommitW p handle size)

/-- The page reached from `new dimW` by `insert 0 (6,6,6)`; that run is
overflow-free, so the plain and the wrapping semantics agree on it. -/
def pageC7 : AtlasPage Nat :=
  ⟨dimW, [(0, ⟨⟨6, 6, 6⟩, ⟨0, 0, 0⟩⟩)], []⟩

/-! ### Componentwise arithmetic facts -/

theorem UVec3.add_x (a b : UVec3) : (a + b).x = a.x + b.x := rfl

theorem UVec3.add_y (a b : UVec3) : (a + b).y = a.y + b.y := rfl

theorem UVec3.add_z (a b : UVec3) : (a + b).z = a.z + b.z := rfl

/-! ### Association-list map lemmas -/

theorem mapGet_eq_none_iff {m : List (H × AtlasInfo)} {h : H} :
    mapGet m h = none ↔ h ∉ keys m := by
  induction m with
  | nil => simp [mapGet, keys]
  | cons e rest ih =>
    obtain ⟨k, v⟩ := e
    by_cases hk : k = h
    · subst hk
      simp [mapGet, keys]
    · simp only [mapGet, if_neg hk, keys, List.map_cons, List.mem_cons, ih, keys]
      constructor
      · rintro hn (rfl | hmem)
        · exact hk rfl
        · exact hn hmem
      · intro hn hmem
        exact hn (Or.inr hmem)

theorem mapGet_mem {m : List (H × AtlasInfo)} {h : H} {v : AtlasInfo}
    (hget : mapGet m h = some v) : (h, v) ∈ m := by
  induction m with
  | nil => simp [mapGet] at hget
  | cons e rest ih =>
    obtain ⟨k, w⟩ := e
    by_cases hk : k = h
    · subst hk
      have hv : w = v := by simpa [mapGet] using hget
      subst hv
      exact List.mem_cons_self _ _
    · simp only [mapGet, if_neg hk] at hget
      exact List.mem_cons_of_mem _ (ih hget)

theorem mem_keys_of_mapGet {m : List (H × AtlasInfo)} {h : H} {v : AtlasInfo}
    (hget : mapGet m h = some v) : h ∈ keys m := by
  have := mapGet_mem hget
  exact List.mem_map_of_mem Prod.fst this

theorem mem_mapRemove {m : List (H × AtlasInfo)} {h : H} {e : H × AtlasInfo} :
    e ∈ mapRemove m h ↔ e ∈ m ∧ e.1 ≠ h := by
  simp [mapRemove, List.mem_filter]

theorem mapRemove_sublist (m : List (H × AtlasInfo)) (h : H) :
    (mapRemove m h).Sublist m :=
  List.filter_sublist m

theorem mapRemove_eq_self {m : List (H × AtlasInfo)} {h : H}
    (hni : h ∉ keys m) : mapRemove m h = m := by
  apply List.filter_eq_self.2
  intro e he
  simp only [decide_eq_true_eq]
  intro hcontra
  exact hni (hcontra ▸ List.mem_map_of_mem Prod.fst he)

theorem not_mem_keys_mapRemove (m : List (H × AtlasInfo)) (h : H) :
    h ∉ keys (mapRemove m h) := by
  intro hmem
  simp only [keys, List.mem_map] at hmem
  obtain ⟨e, he, hfst⟩ := hmem
  exact (mem_mapRemove.1 he).2 hfst

theorem keys_append (a b : List (H × AtlasInfo)) :
    keys (a ++ b) = keys a ++ keys b := by
  simp [keys]

theorem keys_sublist_of_sublist {a b : List (H × AtlasInfo)} (hs : a.Sublist b) :
    (keys a).Sublist (keys b) :=
  hs.map Prod.fst

theorem mapRemove_perm {m : List (H × AtlasInfo)} {h : H} {v : AtlasInfo}
    (hnd : (keys m).Nodup) (hget : mapGet m h = some v) :
    m.Perm ((h, v) :: mapRemove m h) := by
  induction m with
  | nil => simp [mapGet] at hget
  | cons e rest ih =>
    obtain ⟨k, w⟩ := e
    simp only [keys, List.map_cons, List.nodup_cons] at hnd
    by_cases hk : k = h
    · subst hk
      have hv : w = v := by simpa [mapGet] using hget
      subst hv
      have hrw : mapRemove ((k, w) :: rest) k = rest := by
        have h1 : mapRemove ((k, w) :: rest) k = mapRemove rest k := by
          simp [mapRemove, List.filter_cons]
        rw [h1]
        exact mapRemove_eq_self hnd.1
      rw [hrw]
    · simp only [mapGet, if_neg hk] at hget
      have hperm := ih hnd.2 hget
      have hrw : mapRemove ((k, w) :: rest) h = (k, w) :: mapRemove rest h := by
        simp only [mapRemove, List.filter_cons]
        rw [if_pos (by simp [hk])]
      rw [hrw]
      exact (hperm.cons (k, w)).trans (List.Perm.swap _ _ _)

theorem mapGet_mapInsert_self (m : List (H × AtlasInfo)) (h : H) (v : AtlasInfo) :
    mapGet (mapInsert h v m) h = some v := by
  simp [mapInsert, mapGet]

theorem mapGet_mapRemove_self (m : List (H × AtlasInfo)) (h : H) :
    mapGet (mapRemove m h) h = none :=
  mapGet_eq_none_iff.2 (not_mem_keys_mapRemove m h)

theorem foldl_mapRemove_sublist (evs : List H) :
    ∀ m : List (H × AtlasInfo),
      (evs.foldl (fun dead item => mapRemove dead item) m).Sublist m := by
  induction evs with
  | nil => intro m; simp
  | cons e rest ih =>
    intro m
    simp only [List.foldl_cons]
    exact (ih (mapRemove m e)).trans (mapRemove_sublist m e)

theorem mem_foldl_mapRemove {evs : List H} :
    ∀ {m : List (H × AtlasInfo)} {e : H × AtlasInfo},
      e ∈ evs.foldl (fun dead item => mapRemove dead item) m ↔ e ∈ m ∧ e.1 ∉ evs := by
  induction evs with
  | nil => intro m e; simp
  | cons ev rest ih =>
    intro m e
    simp only [List.foldl_cons, ih, mem_mapRemove, List.mem_cons]
    constructor
    · rintro ⟨⟨hm, hne⟩, hnr⟩
      refine ⟨hm, ?_⟩
      rintro (h | h)
      · exact hne h
      · exact hnr h
    · rintro ⟨hm, hn⟩
      exact ⟨⟨hm, fun h => hn (Or.inl h)⟩, fun h => hn (Or.inr h)⟩

/-! ### Box-intersection lemmas -/

theorem boxesIntersect_symm {a b : AtlasInfo} :
    boxesIntersect a b ↔ boxesIntersect b a := by
  unfold boxesIntersect; tauto

theorem intersects_all_iff (pos size : UVec3) (b : AtlasInfo) :
    ((pos.cmplt (b.position + b.size)).band
      ((pos + size).cmpgt b.position)).all = true ↔
      boxesIntersect ⟨size, pos⟩ b := by
  simp only [UVec3.cmplt, UVec3.cmpgt, BVec3.band, BVec3.all, boxesIntersect,
    Bool.and_eq_true, decide_eq_true_eq, HAdd.hAdd, Add.add]
  tauto

theorem not_boxesIntersect_disjoint {a b : AtlasInfo}
    (hni : ¬ boxesIntersect a b) : ∀ q, ¬ (inBox a q ∧ inBox b q) := by
  rintro q ⟨ha, hb⟩
  apply hni
  obtain ⟨⟨hax, hax'⟩, ⟨hay, hay'⟩, ⟨haz, haz'⟩⟩ := ha
  obtain ⟨⟨hbx, hbx'⟩, ⟨hby, hby'⟩, ⟨hbz, hbz'⟩⟩ := hb
  exact ⟨⟨by omega, by omega⟩, ⟨by omega, by omega⟩, ⟨by omega, by omega⟩⟩

/-! ### Soundness of `measure` -/

theorem keys_def (m : List (H × AtlasInfo)) : keys m = m.map Prod.fst := rfl

theorem measure_bounds {p : AtlasPage H} {pos size : UVec3} {r : Nat × List H}
    (hm : p.measure pos size = some r) : inBounds p.dim ⟨size, pos⟩ := by
  unfold AtlasPage.measure at hm
  split at hm
  · cases hm
  · next hb =>
    simp only [UVec3.cmpgt, BVec3.any, Bool.or_eq_true, decide_eq_true_eq,
      not_or, UVec3.add_x, UVec3.add_y, UVec3.add_z] at hb
    refine ⟨?_, ?_, ?_⟩
    · show pos.x + size.x ≤ p.dim.x
      omega
    · show pos.y + size.y ≤ p.dim.y
      omega
    · show pos.z + size.z ≤ p.dim.z
      omega

theorem measureLive_not_intersect {new_lhs new_rhs : UVec3}
    {items : List (H × AtlasInfo)} :
    ∀ {distance d' : UVec3},
      AtlasPage.measureLive new_lhs new_rhs distance items = some d' →
      ∀ e ∈ items,
        ¬ ((new_lhs.cmplt (e.2.position + e.2.size)).band
            (new_rhs.cmpgt e.2.position)).all = true := by
  induction items with
  | nil =>
    intro distance d' _ e he
    cases he
  | cons it rest ih =>
    intro distance d' hm e he
    obtain ⟨k, item⟩ := it
    rw [AtlasPage.measureLive] at hm
    simp only [] at hm
    split at hm
    · cases hm
    · next hall =>
      rcases List.mem_cons.1 he with rfl | hmem
      · exact hall
      · exact ih hm e hmem

theorem mem_collectDead_iff {new_lhs new_rhs : UVec3}
    {dead : List (H × AtlasInfo)} {h' : H} :
    h' ∈ AtlasPage.collectDead new_lhs new_rhs dead ↔
      ∃ e ∈ dead, e.1 = h' ∧
        ((new_lhs.cmplt (e.2.position + e.2.size)).band
          (new_rhs.cmpgt e.2.position)).all = true := by
  unfold AtlasPage.collectDead
  simp only [List.mem_filterMap]
  constructor
  · rintro ⟨e, he, hfe⟩
    split at hfe
    · next hc =>
      exact ⟨e, he, Option.some.inj hfe, hc⟩
    · cases hfe
  · rintro ⟨e, he, rfl, hc⟩
    refine ⟨e, he, ?_⟩
    split
    · rfl
    · next hcon => exact absurd hc hcon

theorem measure_live_not_intersect {p : AtlasPage H} {pos size : UVec3}
    {r : Nat × List H} (hm : p.measure pos size = some r) :
    ∀ e ∈ p.live_items, ¬ boxesIntersect ⟨size, pos⟩ e.2 := by
  unfold AtlasPage.measure at hm
  split at hm
  · cases hm
  · split at hm
    · cases hm
    · next distance hml =>
      intro e he
      rw [← intersects_all_iff pos size e.2]
      exact measureLive_not_intersect hml e he

theorem measure_evict_iff {p : AtlasPage H} {pos size : UVec3} {d : Nat}
    {ev : List H} (hm : p.measure pos size = some (d, ev)) :
    ∀ h', h' ∈ ev ↔ ∃ e ∈ p.dead_items, e.1 = h' ∧ boxesIntersect ⟨size, pos⟩ e.2 := by
  unfold AtlasPage.measure at hm
  split at hm
  · cases hm
  · split at hm
    · cases hm
    · next distance hml =>
      have hev : ev = AtlasPage.collectDead pos (pos + size) p.dead_items := by
        injection hm with h
        injection h with h1 h2
        exact h2.symm
      intro h'
      rw [hev, mem_collectDead_iff]
      constructor
      · rintro ⟨e, he, hfe, hc⟩
        exact ⟨e, he, hfe, (intersects_all_iff pos size e.2).1 hc⟩
      · rintro ⟨e, he, hfe, hc⟩
        exact ⟨e, he, hfe, (intersects_all_iff pos size e.2).2 hc⟩

/-! ### Simple facts about the candidate scan -/

theorem selectBest_eq_of_measure_none {p : AtlasPage H} {size : UVec3}
    {pts : List UVec3} (hall : ∀ q ∈ pts, p.measure q size = none) :
    ∀ st, AtlasPage.selectBest p size st pts = st := by
  induction pts with
  | nil => intro st; rfl
  | cons q rest ih =>
    intro st
    rw [AtlasPage.selectBest]
    have hstep : AtlasPage.searchStep p size st q = st := by
      unfold AtlasPage.searchStep
      rw [hall q (List.mem_cons_self _ _)]
    rw [hstep]
    exact ih (fun q' h => hall q' (List.mem_cons_of_mem _ h)) st

/-! ### Transfer of the invariant along permutation and sublist -/

theorem notIntersect_symmetric :
    Symmetric (fun e1 e2 : H × AtlasInfo => ¬ boxesIntersect e1.2 e2.2) :=
  fun _ _ hab h => hab (boxesIntersect_symm.1 h)

theorem Inv.of_perm {dim : UVec3} {p p' : AtlasPage H} (hp : Inv dim p)
    (hdim : p'.dim = p.dim) (hperm : (entries p').Perm (entries p)) :
    Inv dim p' := by
  obtain ⟨hd, hnd, hb, hpw⟩ := hp
  refine ⟨hdim.trans hd, ?_, ?_, ?_⟩
  · rw [keys_def]
    rw [keys_def] at hnd
    exact ((hperm.map Prod.fst).nodup_iff).2 hnd
  · intro e he
    exact hb e (hperm.mem_iff.1 he)
  · exact (hperm.pairwise_iff (fun hab h => hab (boxesIntersect_symm.1 h))).2 hpw

theorem Inv.of_sublist {dim : UVec3} {p p' : AtlasPage H} (hp : Inv dim p)
    (hdim : p'.dim = p.dim) (hsub : (entries p').Sublist (entries p)) :
    Inv dim p' := by
  obtain ⟨hd, hnd, hb, hpw⟩ := hp
  refine ⟨hdim.trans hd, ?_, ?_, ?_⟩
  · rw [keys_def]
    rw [keys_def] at hnd
    exact hnd.sublist (hsub.map Prod.fst)
  · intro e he
    exact hb e (hsub.subset he)
  · exact hpw.sublist hsub

/-! ### Unfolding equations for `insert` -/

theorem insert_of_live_some {p : AtlasPage H} {h : H} {size : UVec3} {info : AtlasInfo}
    (hget : mapGet p.live_items h = some info) :
    p.insert h size =
      if size = info.size then some (Slot.Existing info.position, p) else none := by
  unfold AtlasPage.insert
  rw [hget]

theorem insert_of_dead_some {p : AtlasPage H} {h : H} {size : UVec3} {info : AtlasInfo}
    (hlive : mapGet p.live_items h = none)
    (hdead : mapGet p.dead_items h = some info) :
    p.insert h size =
      if size = info.size then
        some ( Slot.Existing info.position
             , { p with
                 live_items := mapInsert h info p.live_items
                 dead_items := mapRemove p.dead_items h } )
      else
        some (AtlasPage.searchAndCommit
          { p with dead_items := mapRemove p.dead_items h } h size) := by
  unfold AtlasPage.insert
  rw [hlive, hdead]

theorem insert_of_fresh {p : AtlasPage H} {h : H} {size : UVec3}
    (hlive : mapGet p.live_items h = none)
    (hdead : mapGet p.dead_items h = none) :
    p.insert h size = some (AtlasPage.searchAndCommit p h size) := by
  unfold AtlasPage.insert
  rw [hlive, hdead]

/-! ### Soundness of the candidate scan state -/

theorem selectBest_state_sound {p : AtlasPage H} {size : UVec3} :
    ∀ (pts : List UVec3) (st : Option (UVec3 × Nat × List H)),
      (∀ q d ev, st = some (q, d, ev) → p.measure q size = some (d, ev)) →
      ∀ q d ev, AtlasPage.selectBest p size st pts = some (q, d, ev) →
        p.measure q size = some (d, ev) := by
  intro pts
  induction pts with
  | nil =>
    intro st hst q d ev hsel
    exact hst q d ev hsel
  | cons x rest ih =>
    intro st hst q d ev hsel
    rw [AtlasPage.selectBest] at hsel
    refine ih (AtlasPage.searchStep p size st x) ?_ q d ev hsel
    intro q' d' ev' heq
    unfold AtlasPage.searchStep at heq
    split at heq
    · exact hst _ _ _ heq
    · next dist evs hmx =>
      split at heq
      · simp only [Option.some.injEq, Prod.mk.injEq] at heq
        obtain ⟨rfl, rfl, rfl⟩ := heq
        exact hmx
      · split at heq
        · simp only [Option.some.injEq, Prod.mk.injEq] at heq
          obtain ⟨rfl, rfl, rfl⟩ := heq
          exact hmx
        · simp only [Option.some.injEq, Prod.mk.injEq] at heq
          obtain ⟨rfl, rfl, rfl⟩ := heq
          exact hst _ _ _ rfl

theorem selectBest_measure_of_none {p : AtlasPage H} {size : UVec3}
    {pts : List UVec3} {q : UVec3} {d : Nat} {ev : List H}
    (hsel : AtlasPage.selectBest p size none pts = some (q, d, ev)) :
    p.measure q size = some (d, ev) :=
  selectBest_state_sound pts none (fun _ _ _ hc => by cases hc) q d ev hsel

/-! ### Preservation of the invariant -/

theorem Inv_new (dim : UVec3) : Inv dim (AtlasPage.new dim : AtlasPage H) :=
  ⟨rfl, List.nodup_nil, fun e he => absurd he (List.not_mem_nil e), List.Pairwise.nil⟩

theorem disjoint_keys {dim : UVec3} {p : AtlasPage H} (hp : Inv dim p) :
    ∀ k ∈ keys p.live_items, k ∉ keys p.dead_items := by
  have hnd := hp.2.1
  rw [entries, keys_append] at hnd
  intro k hk1 hk2
  exact (List.disjoint_of_nodup_append hnd) hk1 hk2

theorem Inv_remove {dim : UVec3} {p : AtlasPage H} (hp : Inv dim p) (h : H) :
    Inv dim (p.remove h) := by
  unfold AtlasPage.remove
  split
  · next info hget =>
    have hndl : (keys p.live_items).Nodup := by
      have hnd := hp.2.1
      rw [entries, keys_append] at hnd
      exact hnd.of_append_left
    have hkl : h ∈ keys p.live_items := mem_keys_of_mapGet hget
    have hkd : h ∉ keys p.dead_items := disjoint_keys hp h hkl
    refine hp.of_perm rfl ?_
    show (mapRemove p.live_items h ++ mapInsert h info p.dead_items).Perm
      (p.live_items ++ p.dead_items)
    rw [mapInsert, mapRemove_eq_self hkd]
    have h2 : (p.live_items ++ p.dead_items).Perm
        ((h, info) :: (mapRemove p.live_items h ++ p.dead_items)) :=
      (mapRemove_perm hndl hget).append_right p.dead_items
    exact List.Perm.trans List.perm_middle h2.symm
  · exact hp

theorem Inv_purge {dim : UVec3} {p : AtlasPage H} (hp : Inv dim p) (h : H) :
    Inv dim (p.purge h) := by
  refine hp.of_sublist rfl ?_
  exact List.Sublist.append (mapRemove_sublist _ _) (mapRemove_sublist _ _)

theorem foldl_mapInsert_perm :
    ∀ (live dead : List (H × AtlasInfo)),
      (keys live).Nodup → (∀ k ∈ keys live, k ∉ keys dead) →
      (live.foldl (fun d e => mapInsert e.1 e.2 d) dead).Perm (live ++ dead) := by
  intro live
  induction live with
  | nil =>
    intro dead _ _
    simp
  | cons e rest ih =>
    intro dead hnd hdisj
    obtain ⟨k, v⟩ := e
    simp only [List.foldl_cons]
    have hknd : k ∉ keys dead := by
      refine hdisj k ?_
      rw [keys_def, List.map_cons]
      exact List.mem_cons_self _ _
    have hki : mapInsert k v dead = (k, v) :: dead := by
      unfold mapInsert
      rw [mapRemove_eq_self hknd]
    rw [hki]
    simp only [keys, List.map_cons, List.nodup_cons] at hnd
    have hdisj' : ∀ k' ∈ keys rest, k' ∉ keys ((k, v) :: dead) := by
      intro k' hk'
      have hk'' : k' ∈ keys ((k, v) :: rest) := by
        rw [keys_def, List.map_cons]
        exact List.mem_cons_of_mem _ hk'
      have hnotdead : k' ∉ keys dead := hdisj k' hk''
      rw [keys_def, List.map_cons]
      intro hmem
      rcases List.mem_cons.1 hmem with rfl | hmem2
      · exact hnd.1 hk'
      · exact hnotdead hmem2
    have hperm := ih ((k, v) :: dead) hnd.2 hdisj'
    exact hperm.trans List.perm_middle

theorem Inv_remove_all {dim : UVec3} {p : AtlasPage H} (hp : Inv dim p) :
    Inv dim p.remove_all := by
  have hndl : (keys p.live_items).Nodup := by
    have hnd := hp.2.1
    rw [entries, keys_append] at hnd
    exact hnd.of_append_left
  refine hp.of_perm rfl ?_
  show ([] ++ p.live_items.foldl (fun dead (e : H × AtlasInfo) => mapInsert e.1 e.2 dead)
    p.dead_items).Perm (entries p)
  rw [List.nil_append]
  exact foldl_mapInsert_perm p.live_items p.dead_items hndl (disjoint_keys hp)

theorem Inv_purge_all {dim : UVec3} {p : AtlasPage H} (hp : Inv dim p) :
    Inv dim p.purge_all :=
  ⟨hp.1, List.nodup_nil, fun e he => absurd he (List.not_mem_nil e), List.Pairwise.nil⟩

theorem Inv_searchAndCommit {dim : UVec3} {p : AtlasPage H} {h : H} {size : UVec3}
    (hp : Inv dim p) (hlive : h ∉ keys p.live_items) (hdead : h ∉ keys p.dead_items) :
    Inv dim (p.searchAndCommit h size).2 := by
  unfold AtlasPage.searchAndCommit
  split
  · next q d ev hsel =>
    have hmes : p.measure q size = some (d, ev) := selectBest_measure_of_none hsel
    have hlive' : mapInsert h ⟨size, q⟩ p.live_items = (h, (⟨size, q⟩ : AtlasInfo)) :: p.live_items := by
      unfold mapInsert
      rw [mapRemove_eq_self hlive]
    have hdsub : (ev.foldl (fun dead item => mapRemove dead item) p.dead_items).Sublist
        p.dead_items := foldl_mapRemove_sublist ev p.dead_items
    have hesub : (p.live_items ++
        ev.foldl (fun dead item => mapRemove dead item) p.dead_items).Sublist (entries p) :=
      List.Sublist.append (List.Sublist.refl _) hdsub
    obtain ⟨hd, hnd, hb, hpw⟩ := hp
    refine ⟨hd, ?_, ?_, ?_⟩
    · show (keys (mapInsert h ⟨size, q⟩ p.live_items ++
        ev.foldl (fun dead item => mapRemove dead item) p.dead_items)).Nodup
      rw [hlive', List.cons_append, keys_def, List.map_cons]
      have hsubk : ((p.live_items ++
          ev.foldl (fun dead item => mapRemove dead item) p.dead_items).map Prod.fst).Sublist
          ((entries p).map Prod.fst) := hesub.map Prod.fst
      rw [keys_def] at hnd
      refine List.nodup_cons.2 ⟨?_, hnd.sublist hsubk⟩
      intro hmem
      rw [List.map_append] at hmem
      rcases List.mem_append.1 hmem with hm | hm
      · exact hlive hm
      · exact hdead ((keys_sublist_of_sublist hdsub).subset hm)
    · intro e he
      have he2 : e ∈ mapInsert h ⟨size, q⟩ p.live_items ++
          ev.foldl (fun dead item => mapRemove dead item) p.dead_items := he
      rw [hlive', List.cons_append] at he2
      rcases List.mem_cons.1 he2 with rfl | hm
      · have hbq := measure_bounds hmes
        rw [hd] at hbq
        exact hbq
      · exact hb e (hesub.subset hm)
    · show (mapInsert h ⟨size, q⟩ p.live_items ++
        ev.foldl (fun dead item => mapRemove dead item) p.dead_items).Pairwise
          (fun e1 e2 => ¬ boxesIntersect e1.2 e2.2)
      rw [hlive', List.cons_append]
      refine List.pairwise_cons.2 ⟨?_, hpw.sublist hesub⟩
      intro e he
      rcases List.mem_append.1 he with hm | hm
      · exact measure_live_not_intersect hmes e hm
      · obtain ⟨hmd, hnev⟩ := mem_foldl_mapRemove.1 hm
        intro hbi
        exact hnev ((measure_evict_iff hmes e.1).2 ⟨e, hmd, rfl, hbi⟩)
  · exact hp

theorem Inv_insert {dim : UVec3} {p : AtlasPage H} {h : H} {size : UVec3}
    {s : Slot} {p' : AtlasPage H} (hp : Inv dim p)
    (hins : p.insert h size = some (s, p')) : Inv dim p' := by
  rcases hgl : mapGet p.live_items h with _ | info
  · rcases hgd : mapGet p.dead_items h with _ | info
    · -- unknown handle: plain search
      rw [insert_of_fresh hgl hgd] at hins
      have hp2 : Inv dim (p.searchAndCommit h size).2 :=
        Inv_searchAndCommit hp (mapGet_eq_none_iff.1 hgl) (mapGet_eq_none_iff.1 hgd)
      have : p' = (p.searchAndCommit h size).2 := by
        injection hins with h1
        rw [h1]
      rw [this]
      exact hp2
    · -- handle present in the dead generation
      rw [insert_of_dead_some hgl hgd] at hins
      split at hins
      · -- revival
        simp only [Option.some.injEq, Prod.mk.injEq] at hins
        obtain ⟨-, rfl⟩ := hins
        have hndd : (keys p.dead_items).Nodup := by
          have hnd := hp.2.1
          rw [entries, keys_append] at hnd
          exact hnd.of_append_right
        have hkl : h ∉ keys p.live_items := mapGet_eq_none_iff.1 hgl
        refine hp.of_perm rfl ?_
        show (mapInsert h info p.live_items ++ mapRemove p.dead_items h).Perm
          (p.live_items ++ p.dead_items)
        rw [mapInsert, mapRemove_eq_self hkl]
        have h2 : (p.live_items ++ p.dead_items).Perm
            (p.live_items ++ ((h, info) :: mapRemove p.dead_items h)) :=
          (mapRemove_perm hndd hgd).append_left p.live_items
        exact List.Perm.trans List.perm_middle.symm h2.symm
      · -- stale dead entry: discard it, then search
        set p2 : AtlasPage H :=
          { p with dead_items := mapRemove p.dead_items h } with hp2def
        have hp2 : Inv dim p2 :=
          hp.of_sublist rfl (List.Sublist.append (List.Sublist.refl _) (mapRemove_sublist _ _))
        have hc : Inv dim (p2.searchAndCommit h size).2 :=
          Inv_searchAndCommit hp2 (mapGet_eq_none_iff.1 hgl)
            (not_mem_keys_mapRemove p.dead_items h)
        have : p' = (p2.searchAndCommit h size).2 := by
          injection hins with h1
          rw [h1]
        rw [this]
        exact hc
  · -- handle still live
    rw [insert_of_live_some hgl] at hins
    split at hins
    · simp only [Option.some.injEq, Prod.mk.injEq] at hins
      obtain ⟨-, rfl⟩ := hins
      exact hp
    · cases hins

theorem Inv_applyOp {dim : UVec3} {p p' : AtlasPage H} {op : Op H}
    (hp : Inv dim p) (happ : applyOp p op = some p') : Inv dim p' := by
  cases op with
  | insert h size =>
    simp only [applyOp, Option.map_eq_some'] at happ
    obtain ⟨⟨s, q⟩, hins, rfl⟩ := happ
    exact Inv_insert hp hins
  | remove h =>
    simp only [applyOp, Option.some.injEq] at happ
    rw [← happ]
    exact Inv_remove hp h
  | purge h =>
    simp only [applyOp, Option.some.injEq] at happ
    rw [← happ]
    exact Inv_purge hp h
  | removeAll =>
    simp only [applyOp, Option.some.injEq] at happ
    rw [← happ]
    exact Inv_remove_all hp
  | purgeAll =>
    simp only [applyOp, Option.some.injEq] at happ
    rw [← happ]
    exact Inv_purge_all hp

theorem Inv_runOps {dim : UVec3} :
    ∀ (ops : List (Op H)) {p p' : AtlasPage H},
      Inv dim p → runOps p ops = some p' → Inv dim p' := by
  intro ops
  induction ops with
  | nil =>
    intro p p' hp hrun
    simp only [runOps, Option.some.injEq] at hrun
    rw [← hrun]
    exact hp
  | cons op rest ih =>
    intro p p' hp hrun
    rw [runOps] at hrun
    split at hrun
    · next p2 happ => exact ih (Inv_applyOp hp happ) hrun
    · cases hrun

theorem Inv_of_reachable {dim : UVec3} {p : AtlasPage H}
    (hre : Reachable dim p) : Inv dim p := by
  obtain ⟨ops, hrun⟩ := hre
  exact Inv_runOps ops (Inv_new dim) hrun

/-! ### Auxiliary facts for the NoFit claims, under the wrapping semantics -/

theorem mem_allCornersW_iff {items : List (H × AtlasInfo)} {q : UVec3} :
    q ∈ AtlasPage.allCornersW items ↔ ∃ e ∈ items, q ∈ AtlasPage.cornerPointsW e.2 := by
  induction items with
  | nil => simp [AtlasPage.allCornersW]
  | cons e rest ih =>
    obtain ⟨k, item⟩ := e
    simp only [AtlasPage.allCornersW, List.mem_append, ih, List.mem_cons]
    constructor
    · rintro (hc | ⟨e2, he2, hc⟩)
      · exact ⟨(k, item), Or.inl rfl, hc⟩
      · exact ⟨e2, Or.inr he2, hc⟩
    · rintro ⟨e2, rfl | he2, hc⟩
      · exact Or.inl hc
      · exact Or.inr ⟨e2, he2, hc⟩

theorem insertPointsW_strip_subset {p : AtlasPage H} {h : H} :
    ∀ q ∈ AtlasPage.insertPointsW
      ({ p with dead_items := mapRemove p.dead_items h } : AtlasPage H),
      q ∈ AtlasPage.insertPointsW p := by
  intro q hq
  rcases List.mem_cons.1 hq with rfl | hm
  · exact List.mem_cons_self _ _
  · rcases List.mem_append.1 hm with hm2 | hm2
    · exact List.mem_cons_of_mem _ (List.mem_append.2 (Or.inl hm2))
    · obtain ⟨e, he, hc⟩ := mem_allCornersW_iff.1 hm2
      exact List.mem_cons_of_mem _ (List.mem_append.2
        (Or.inr (mem_allCornersW_iff.2 ⟨e, (mem_mapRemove.1 he).1, hc⟩)))

theorem measureW_none_of_oversize {p : AtlasPage H} {pos size : UVec3}
    (hnof : pos.x + size.x < 4294967296 ∧ pos.y + size.y < 4294967296 ∧
      pos.z + size.z < 4294967296)
    (hbig : p.dim.x < size.x ∨ p.dim.y < size.y ∨ p.dim.z < size.z) :
    p.measureW pos size = none := by
  unfold AtlasPage.measureW
  rw [if_pos]
  obtain ⟨h1, h2, h3⟩ := hnof
  simp only [UVec3.addw, wadd, UVec3.cmpgt, BVec3.any, Bool.or_eq_true,
    decide_eq_true_eq]
  rw [Nat.mod_eq_of_lt h1, Nat.mod_eq_of_lt h2, Nat.mod_eq_of_lt h3]
  omega

theorem selectBestW_eq_of_measure_none {p : AtlasPage H} {size : UVec3}
    {pts : List UVec3} (hall : ∀ q ∈ pts, p.measureW q size = none) :
    ∀ st, AtlasPage.selectBestW p size st pts = st := by
  induction pts with
  | nil => intro st; rfl
  | cons q rest ih =>
    intro st
    rw [AtlasPage.selectBestW]
    have hstep : AtlasPage.searchStepW p size st q = st := by
      unfold AtlasPage.searchStepW
      rw [hall q (List.mem_cons_self _ _)]
    rw [hstep]
    exact ih (fun q' h => hall q' (List.mem_cons_of_mem _ h)) st

theorem searchAndCommitW_nofit {p : AtlasPage H} {h : H} {size : UVec3}
    (hall : ∀ q ∈ AtlasPage.insertPointsW p, p.measureW q size = none) :
    p.searchAndCommitW h size = (Slot.NoFit, p) := by
  unfold AtlasPage.searchAndCommitW
  rw [selectBestW_eq_of_measure_none hall none]

theorem insertW_of_dead_some {p : AtlasPage H} {h : H} {size : UVec3} {info : AtlasInfo}
    (hlive : mapGet p.live_items h = none)
    (hdead : mapGet p.dead_items h = some info) :
    p.insertW h size =
      if size = info.size then
        some ( Slot.Existing info.position
             , { p with
                 live_items := mapInsert h info p.live_items
                 dead_items := mapRemove p.dead_items h } )
      else
        some (AtlasPage.searchAndCommitW
          { p with dead_items := mapRemove p.dead_items h } h size) := by
  unfold AtlasPage.insertW
  rw [hlive, hdead]

theorem insertW_of_fresh {p : AtlasPage H} {h : H} {size : UVec3}
    (hlive : mapGet p.live_items h = none)
    (hdead : mapGet p.dead_items h = none) :
    p.insertW h size = some (AtlasPage.searchAndCommitW p h size) := by
  unfold AtlasPage.insertW
  rw [hlive, hdead]

/-! ### The claims -/

/-- Claim C2: for every operation sequence applied to a page created by
`new dim`, at every intermediate state, the half-open boxes of any two
distinct live handles do not intersect (no common point). -/
theorem claim_C2 {dim : UVec3} {p : AtlasPage H} (hre : Reachable dim p) :
    ∀ h1 h2 : H, h1 ≠ h2 →
      ∀ i1 i2 : AtlasInfo, mapGet p.live_items h1 = some i1 →
        mapGet p.live_items h2 = some i2 →
        ∀ q : UVec3, ¬ (inBox i1 q ∧ inBox i2 q) := by
  have hI := Inv_of_reachable hre
  intro h1 h2 hne i1 i2 hg1 hg2 q
  have he1 : (h1, i1) ∈ entries p := List.mem_append.2 (Or.inl (mapGet_mem hg1))
  have he2 : (h2, i2) ∈ entries p := List.mem_append.2 (Or.inl (mapGet_mem hg2))
  have hpair : ¬ boxesIntersect i1 i2 := by
    refine hI.2.2.2.forall notIntersect_symmetric he1 he2 ?_
    intro hcontra
    exact hne (congrArg Prod.fst hcontra)
  exact not_boxesIntersect_disjoint hpair q

theorem claim_C2_witness :
    ¬ (inBox ⟨⟨2, 2, 2⟩, ⟨0, 0, 0⟩⟩ ⟨1, 1, 1⟩ ∧ inBox ⟨⟨2, 2, 2⟩, ⟨2, 0, 0⟩⟩ ⟨1, 1, 1⟩) :=
  claim_C2
    (⟨[Op.insert 0 ⟨2, 2, 2⟩, Op.insert 1 ⟨2, 2, 2⟩], by decide⟩ :
      Reachable dimW pageTwoLive)
    0 1 (by decide) ⟨⟨2, 2, 2⟩, ⟨0, 0, 0⟩⟩ ⟨⟨2, 2, 2⟩, ⟨2, 0, 0⟩⟩
    (by decide) (by decide) ⟨1, 1, 1⟩

/-- Claim C6: for every operation sequence applied to a page created by
`new dim`, at every intermediate state, every entry stored in either
generation satisfies `position + size ≤ dim` componentwise. -/
theorem claim_C6 {dim : UVec3} {p : AtlasPage H} (hre : Reachable dim p) :
    ∀ e ∈ entries p,
      e.2.position.x + e.2.size.x ≤ dim.x ∧
      e.2.position.y + e.2.size.y ≤ dim.y ∧
      e.2.position.z + e.2.size.z ≤ dim.z := by
  have hI := Inv_of_reachable hre
  intro e he
  exact hI.2.2.1 e he

theorem claim_C6_witness :
    (0 : Nat) + 2 ≤ 10 ∧ (0 : Nat) + 2 ≤ 10 ∧ (0 : Nat) + 2 ≤ 10 :=
  claim_C6
    (⟨[Op.insert 0 ⟨2, 2, 2⟩, Op.insert 1 ⟨2, 2, 2⟩], by decide⟩ :
      Reachable dimW pageTwoLive)
    (0, ⟨⟨2, 2, 2⟩, ⟨0, 0, 0⟩⟩) (by decide)

/-- Claim C10: for every operation sequence applied to a page created by
`new dim`, at every intermediate state, no two distinct entries anywhere in
the structure — live or dead — have intersecting boxes (the eviction pass of
a committed placement purges every overlapping dead entry, so this holds
across generations as well). -/
theorem claim_C10 {dim : UVec3} {p : AtlasPage H} (hre : Reachable dim p) :
    ∀ e1 ∈ entries p, ∀ e2 ∈ entries p, e1.1 ≠ e2.1 →
      ∀ q : UVec3, ¬ (inBox e1.2 q ∧ inBox e2.2 q) := by
  have hI := Inv_of_reachable hre
  intro e1 he1 e2 he2 hne q
  refine not_boxesIntersect_disjoint ?_ q
  refine hI.2.2.2.forall notIntersect_symmetric he1 he2 ?_
  intro hcontra
  exact hne (congrArg Prod.fst hcontra)

theorem claim_C10_witness :
    ¬ (inBox ⟨⟨2, 2, 2⟩, ⟨2, 0, 0⟩⟩ ⟨0, 0, 0⟩ ∧ inBox ⟨⟨2, 2, 2⟩, ⟨0, 0, 0⟩⟩ ⟨0, 0, 0⟩) :=
  claim_C10
    (⟨[Op.insert 0 ⟨2, 2, 2⟩, Op.insert 1 ⟨2, 2, 2⟩, Op.remove 0], by decide⟩ :
      Reachable dimW pageLiveDead)
    (1, ⟨⟨2, 2, 2⟩, ⟨2, 0, 0⟩⟩) (by decide) (0, ⟨⟨2, 2, 2⟩, ⟨0, 0, 0⟩⟩) (by decide)
    (by decide) ⟨0, 0, 0⟩

/-- Claim C4: if `handle` is live with stored size equal to the requested
size, `insert` returns `Existing (stored position)` and the page — both
maps included — is unchanged. -/
theorem claim_C4 {p : AtlasPage H} {h : H} {size : UVec3} {info : AtlasInfo}
    (hget : mapGet p.live_items h = some info) (hsz : info.size = size) :
    p.insert h size = some (Slot.Existing info.position, p) := by
  rw [insert_of_live_some hget, if_pos hsz.symm]

theorem claim_C4_witness :
    pageTwoLive.insert 0 ⟨2, 2, 2⟩ = some (Slot.Existing ⟨0, 0, 0⟩, pageTwoLive) :=
  claim_C4
    (show mapGet pageTwoLive.live_items 0 = some ⟨⟨2, 2, 2⟩, ⟨0, 0, 0⟩⟩ by decide)
    (by decide)

/-- Claim C9: if `handle` is live with a stored size different from the
requested size, the source's `assert_eq!` fails and the process aborts;
in the embedding `insert` returns `none` and in particular never a `Slot`. -/
theorem claim_C9 {p : AtlasPage H} {h : H} {size : UVec3} {info : AtlasInfo}
    (hget : mapGet p.live_items h = some info) (hsz : info.size ≠ size) :
    p.insert h size = none := by
  rw [insert_of_live_some hget, if_neg (fun hc => hsz hc.symm)]

theorem claim_C9_witness : pageTwoLive.insert 0 ⟨3, 3, 3⟩ = none :=
  claim_C9
    (show mapGet pageTwoLive.live_items 0 = some ⟨⟨2, 2, 2⟩, ⟨0, 0, 0⟩⟩ by decide)
    (by decide)

/-- Claim C5: a dead handle re-inserted with its stored size is revived —
the entry moves unchanged from the dead map back to the live map and
`Existing (stored position)` is returned; in particular `remove` followed by
`insert` with the same size returns `Existing` with the pre-removal
position. -/
theorem claim_C5 (p : AtlasPage H) (h : H) (size : UVec3) (info : AtlasInfo) :
    (mapGet p.live_items h = none → mapGet p.dead_items h = some info →
      info.size = size →
      p.insert h size = some (Slot.Existing info.position,
        { p with
          live_items := mapInsert h info p.live_items
          dead_items := mapRemove p.dead_items h })) ∧
    (mapGet p.live_items h = some info → info.size = size →
      ∃ p' : AtlasPage H,
        (p.remove h).insert h size = some (Slot.Existing info.position, p')) := by
  constructor
  · intro hl hd hs
    rw [insert_of_dead_some hl hd, if_pos hs.symm]
  · intro hl hs
    have hrm : p.remove h =
        { p with
          live_items := mapRemove p.live_items h
          dead_items := mapInsert h info p.dead_items } := by
      unfold AtlasPage.remove
      rw [hl]
    rw [hrm]
    have hl2 : mapGet ({ p with
        live_items := mapRemove p.live_items h
        dead_items := mapInsert h info p.dead_items } : AtlasPage H).live_items h = none :=
      mapGet_mapRemove_self _ _
    have hd2 : mapGet ({ p with
        live_items := mapRemove p.live_items h
        dead_items := mapInsert h info p.dead_items } : AtlasPage H).dead_items h = some info :=
      mapGet_mapInsert_self _ _ _
    refine ⟨{ p with
      live_items := mapInsert h info (mapRemove p.live_items h)
      dead_items := mapRemove (mapInsert h info p.dead_items) h }, ?_⟩
    rw [insert_of_dead_some hl2 hd2, if_pos hs.symm]

theorem claim_C5_witness :
    pageLiveDead.insert 0 ⟨2, 2, 2⟩ = some (Slot.Existing ⟨0, 0, 0⟩,
      { pageLiveDead with
        live_items := mapInsert 0 ⟨⟨2, 2, 2⟩, ⟨0, 0, 0⟩⟩ pageLiveDead.live_items
        dead_items := mapRemove pageLiveDead.dead_items 0 }) :=
  (claim_C5 pageLiveDead 0 ⟨2, 2, 2⟩ ⟨⟨2, 2, 2⟩, ⟨0, 0, 0⟩⟩).1
    (by decide) (by decide) (by decide)

/-- Claim C7 counterexample: under the release-build wrapping `u32`
semantics the claim fails.  On the page holding one live `(6,6,6)` entry at
the origin (reached from `new dimW` by one overflow-free insert), handle `1`
is neither live nor revivable and the requested size `(2^32 − 4, 1, 1)`
strictly exceeds `dim = (10,10,10)` on the x axis, yet `insert` returns
`New (6,0,0)` instead of `NoFit`: at candidate `(6,0,0)` the wrapped
`pos + size` is `(2,1,1)`, which passes the bounds check (a debug build
panics on the same input instead of returning anything). -/
theorem claim_C7_counterexample :
    (AtlasPage.new dimW : AtlasPage Nat).insertW 0 ⟨6, 6, 6⟩ =
      some (Slot.New UVec3.ZERO, pageC7) ∧
    mapGet pageC7.live_items 1 = none ∧
    mapGet pageC7.dead_items 1 = none ∧
    pageC7.dim.x < 4294967292 ∧
    (pageC7.insertW 1 ⟨4294967292, 1, 1⟩).map Prod.fst = some (Slot.New ⟨6, 0, 0⟩) :=
  ⟨by decide, by decide, by decide, by decide, by decide⟩

/-- Claim C7 (amended): for a handle that is neither live nor revivable (no
dead entry of exactly the requested size), a request whose size strictly
exceeds `dim` on some axis yields `NoFit` — provided the `u32` additions
`candidate + size` do not overflow (each componentwise sum below `2^32` for
every generated candidate point).  Without that proviso the conclusion fails
(see the counterexample): a wrapped sum can pass the bounds check, in which
case a release build commits a placement and a debug build panics. -/
theorem claim_C7_amended {p : AtlasPage H} {h : H} {size : UVec3}
    (hlive : mapGet p.live_items h = none)
    (hdead : ∀ info, mapGet p.dead_items h = some info → info.size ≠ size)
    (hbig : p.dim.x < size.x ∨ p.dim.y < size.y ∨ p.dim.z < size.z)
    (hnof : ∀ q ∈ AtlasPage.insertPointsW p,
      q.x + size.x < 4294967296 ∧ q.y + size.y < 4294967296 ∧
        q.z + size.z < 4294967296) :
    ∃ p' : AtlasPage H, p.insertW h size = some (Slot.NoFit, p') := by
  rcases hgd : mapGet p.dead_items h with _ | info
  · refine ⟨p, ?_⟩
    rw [insertW_of_fresh hlive hgd]
    rw [searchAndCommitW_nofit
      (fun q hq => measureW_none_of_oversize (hnof q hq) hbig)]
  · refine ⟨{ p with dead_items := mapRemove p.dead_items h }, ?_⟩
    rw [insertW_of_dead_some hlive hgd,
      if_neg (fun hc => hdead info hgd hc.symm)]
    have hbig2 : ({ p with dead_items := mapRemove p.dead_items h } : AtlasPage H).dim.x < size.x ∨
        ({ p with dead_items := mapRemove p.dead_items h } : AtlasPage H).dim.y < size.y ∨
        ({ p with dead_items := mapRemove p.dead_items h } : AtlasPage H).dim.z < size.z := hbig
    rw [searchAndCommitW_nofit
      (fun q hq => measureW_none_of_oversize (hnof q (insertPointsW_strip_subset q hq)) hbig2)]

theorem claim_C7_amended_witness :
    ∃ p' : AtlasPage Nat, pageTwoLive.insertW 5 ⟨11, 1, 1⟩ = some (Slot.NoFit, p') :=
  claim_C7_amended (by decide) (fun info hc => Option.noConfusion hc) (by decide)
    (by decide)

/-- Claim C1 counterexample: from the reachable page holding one dead entry
of size `(1,1,1)` for handle `0`, requesting handle `0` with the mismatched
size `(11,1,1)` returns `NoFit`, yet the stale dead entry has been
discarded — the state after the call is not the state before it. -/
theorem claim_C1_counterexample :
    runOps (AtlasPage.new dimW) [Op.insert 0 ⟨1, 1, 1⟩, Op.remove 0] = some pageOneDead ∧
    pageOneDead.insert 0 ⟨11, 1, 1⟩ =
      some (Slot.NoFit, { pageOneDead with dead_items := [] }) ∧
    pageOneDead.dead_items ≠ [] :=
  ⟨by decide, by decide, by decide⟩

/-- Claim C1 (amended): if `insert` returns `NoFit` then `dim` and the live
map are unchanged, and the dead map is unchanged as well — except that when
the handle was present in the dead generation with a size different from the
requested one, exactly that stale entry has been discarded. -/
theorem claim_C1_amended {p p' : AtlasPage H} {h : H} {size : UVec3}
    (hins : p.insert h size = some (Slot.NoFit, p')) :
    p'.dim = p.dim ∧ p'.live_items = p.live_items ∧
      ((∃ info, mapGet p.dead_items h = some info ∧ info.size ≠ size ∧
          p'.dead_items = mapRemove p.dead_items h) ∨
        p'.dead_items = p.dead_items) := by
  rcases hgl : mapGet p.live_items h with _ | info
  · rcases hgd : mapGet p.dead_items h with _ | info
    · rw [insert_of_fresh hgl hgd] at hins
      unfold AtlasPage.searchAndCommit at hins
      split at hins
      · simp at hins
      · simp only [Option.some.injEq, Prod.mk.injEq] at hins
        obtain ⟨-, rfl⟩ := hins
        exact ⟨rfl, rfl, Or.inr rfl⟩
    · rw [insert_of_dead_some hgl hgd] at hins
      split at hins
      · simp at hins
      · next hne =>
        unfold AtlasPage.searchAndCommit at hins
        split at hins
        · simp at hins
        · simp only [Option.some.injEq, Prod.mk.injEq] at hins
          obtain ⟨-, rfl⟩ := hins
          exact ⟨rfl, rfl, Or.inl ⟨info, hgd ▸ rfl, fun hc => hne hc.symm, rfl⟩⟩
  · rw [insert_of_live_some hgl] at hins
    split at hins
    · simp at hins
    · cases hins

theorem claim_C1_amended_witness :
    ({ pageOneDead with dead_items := [] } : AtlasPage Nat).dim = pageOneDead.dim ∧
    ({ pageOneDead with dead_items := [] } : AtlasPage Nat).live_items =
      pageOneDead.live_items ∧
      ((∃ info, mapGet pageOneDead.dead_items 0 = some info ∧
          info.size ≠ (⟨11, 1, 1⟩ : UVec3) ∧
          ({ pageOneDead with dead_items := [] } : AtlasPage Nat).dead_items =
            mapRemove pageOneDead.dead_items 0) ∨
        ({ pageOneDead with dead_items := [] } : AtlasPage Nat).dead_items =
          pageOneDead.dead_items) :=
  claim_C1_amended
    (show pageOneDead.insert 0 ⟨11, 1, 1⟩ =
      some (Slot.NoFit, { pageOneDead with dead_items := [] }) by decide)

/-- Claim C3 counterexample: the source performs no degenerate-size
validation: inserting size `(0,1,1)` into an empty `10×10×10` page is not
rejected — it runs the placement search, commits an entry, and returns
`New (0,0,0)`. -/
theorem claim_C3_counterexample :
    (AtlasPage.new dimW : AtlasPage Nat).insert 0 ⟨0, 1, 1⟩ =
      some (Slot.New UVec3.ZERO, ⟨dimW, [(0, ⟨⟨0, 1, 1⟩, UVec3.ZERO⟩)], []⟩) := by
  decide

/-- Claim C3 (amended): `insert` performs no validation of zero-sized
components; such a request goes through the ordinary placement search and
can commit — on an empty page whose dimensions dominate the size it commits
an entry at the origin and returns `New (0,0,0)`. -/
theorem claim_C3_amended {dim size : UVec3} {h : H}
    (_hz : size.x = 0 ∨ size.y = 0 ∨ size.z = 0)
    (hx : size.x ≤ dim.x) (hy : size.y ≤ dim.y) (hzd : size.z ≤ dim.z) :
    (AtlasPage.new dim : AtlasPage H).insert h size =
      some (Slot.New UVec3.ZERO, ⟨dim, [(h, ⟨size, UVec3.ZERO⟩)], []⟩) := by
  rw [insert_of_fresh
    (show mapGet (AtlasPage.new dim : AtlasPage H).live_items h = none from rfl)
    (show mapGet (AtlasPage.new dim : AtlasPage H).dead_items h = none from rfl)]
  have hm : (AtlasPage.new dim : AtlasPage H).measure UVec3.ZERO size =
      some ((dim - UVec3.ZERO - size).x + (dim - UVec3.ZERO - size).y +
        (dim - UVec3.ZERO - size).z, []) := by
    unfold AtlasPage.measure
    rw [if_neg]
    · rfl
    · simp only [UVec3.cmpgt, BVec3.any, UVec3.add_x, UVec3.add_y, UVec3.add_z,
        Bool.or_eq_true, decide_eq_true_eq, not_or, UVec3.ZERO, AtlasPage.new]
      omega
  have hsel : AtlasPage.selectBest (AtlasPage.new dim : AtlasPage H) size none
      (AtlasPage.insertPoints (AtlasPage.new dim : AtlasPage H)) =
      some (UVec3.ZERO, (dim - UVec3.ZERO - size).x + (dim - UVec3.ZERO - size).y +
        (dim - UVec3.ZERO - size).z, []) := by
    show AtlasPage.selectBest (AtlasPage.new dim : AtlasPage H) size none [UVec3.ZERO] = _
    rw [AtlasPage.selectBest]
    have hstep : AtlasPage.searchStep (AtlasPage.new dim : AtlasPage H) size none UVec3.ZERO =
        some (UVec3.ZERO, (dim - UVec3.ZERO - size).x + (dim - UVec3.ZERO - size).y +
          (dim - UVec3.ZERO - size).z, []) := by
      unfold AtlasPage.searchStep
      rw [hm]
    rw [hstep]
    rfl
  unfold AtlasPage.searchAndCommit
  rw [hsel]
  rfl

theorem claim_C3_amended_witness :
    ((⟨0, 1, 1⟩ : UVec3).x = 0 ∨ (⟨0, 1, 1⟩ : UVec3).y = 0 ∨ (⟨0, 1, 1⟩ : UVec3).z = 0) ∧
    (AtlasPage.new dimW : AtlasPage Nat).insert 7 ⟨0, 1, 1⟩ =
      some (Slot.New UVec3.ZERO, ⟨dimW, [(7, ⟨⟨0, 1, 1⟩, UVec3.ZERO⟩)], []⟩) :=
  ⟨Or.inl rfl, claim_C3_amended (Or.inl rfl) (by decide) (by decide) (by decide)⟩

/-! ### Facts about the lexicographic candidate order -/

theorem lexLt_irrefl (a : Nat × Nat) : ¬ AtlasPage.lexLt a a := by
  obtain ⟨a1, a2⟩ := a
  simp only [AtlasPage.lexLt]
  omega

theorem lexLt_trans {a b c : Nat × Nat}
    (h1 : AtlasPage.lexLt a b) (h2 : AtlasPage.lexLt b c) : AtlasPage.lexLt a c := by
  obtain ⟨a1, a2⟩ := a
  obtain ⟨b1, b2⟩ := b
  obtain ⟨c1, c2⟩ := c
  simp only [AtlasPage.lexLt] at *
  omega

theorem lexLt_asymm {a b : Nat × Nat}
    (h1 : AtlasPage.lexLt a b) : ¬ AtlasPage.lexLt b a := by
  obtain ⟨a1, a2⟩ := a
  obtain ⟨b1, b2⟩ := b
  simp only [AtlasPage.lexLt] at *
  omega

theorem lexLt_of_lexLt_of_not_lexLt {a b c : Nat × Nat}
    (h1 : AtlasPage.lexLt a b) (h2 : ¬ AtlasPage.lexLt c b) : AtlasPage.lexLt a c := by
  obtain ⟨a1, a2⟩ := a
  obtain ⟨b1, b2⟩ := b
  obtain ⟨c1, c2⟩ := c
  simp only [AtlasPage.lexLt] at *
  omega

/-! ### The candidate set -/

theorem UVec3.mul_X (s : UVec3) : s * UVec3.X = ⟨s.x, 0, 0⟩ := by
  show UVec3.mk (s.x * 1) (s.y * 0) (s.z * 0) = _
  rw [Nat.mul_one, Nat.mul_zero, Nat.mul_zero]

theorem UVec3.mul_Y (s : UVec3) : s * UVec3.Y = ⟨0, s.y, 0⟩ := by
  show UVec3.mk (s.x * 0) (s.y * 1) (s.z * 0) = _
  rw [Nat.mul_one, Nat.mul_zero, Nat.mul_zero]

theorem UVec3.mul_Z (s : UVec3) : s * UVec3.Z = ⟨0, 0, s.z⟩ := by
  show UVec3.mk (s.x * 0) (s.y * 0) (s.z * 1) = _
  rw [Nat.mul_one, Nat.mul_zero, Nat.mul_zero]

theorem mem_cornerPoints_iff {i : AtlasInfo} {q : UVec3} :
    q ∈ AtlasPage.cornerPoints i ↔
      q = i.position + ⟨i.size.x, 0, 0⟩ ∨
      q = i.position + ⟨0, i.size.y, 0⟩ ∨
      q = i.position + ⟨0, 0, i.size.z⟩ := by
  simp only [AtlasPage.cornerPoints, List.mem_cons, List.mem_singleton,
    UVec3.mul_X, UVec3.mul_Y, UVec3.mul_Z]
  tauto

theorem mem_allCorners_iff {items : List (H × AtlasInfo)} {q : UVec3} :
    q ∈ AtlasPage.allCorners items ↔ ∃ e ∈ items, q ∈ AtlasPage.cornerPoints e.2 := by
  induction items with
  | nil => simp [AtlasPage.allCorners]
  | cons e rest ih =>
    obtain ⟨k, item⟩ := e
    simp only [AtlasPage.allCorners, List.mem_append, ih, List.mem_cons]
    constructor
    · rintro (hc | ⟨e2, he2, hc⟩)
      · exact ⟨(k, item), Or.inl rfl, hc⟩
      · exact ⟨e2, Or.inr he2, hc⟩
    · rintro ⟨e2, rfl | he2, hc⟩
      · exact Or.inl hc
      · exact Or.inr ⟨e2, he2, hc⟩

theorem mem_insertPoints_iff {p : AtlasPage H} {q : UVec3} :
    q ∈ AtlasPage.insertPoints p ↔
      (q = UVec3.ZERO ∨ ∃ e ∈ entries p,
        q = e.2.position + ⟨e.2.size.x, 0, 0⟩ ∨
        q = e.2.position + ⟨0, e.2.size.y, 0⟩ ∨
        q = e.2.position + ⟨0, 0, e.2.size.z⟩) := by
  simp only [AtlasPage.insertPoints, List.mem_cons, List.mem_append,
    mem_allCorners_iff, entries, mem_cornerPoints_iff]
  constructor
  · rintro (rfl | (⟨e, he, hc⟩ | ⟨e, he, hc⟩))
    · exact Or.inl rfl
    · exact Or.inr ⟨e, Or.inl he, hc⟩
    · exact Or.inr ⟨e, Or.inr he, hc⟩
  · rintro (rfl | ⟨e, he, hc⟩)
    · exact Or.inl rfl
    · rcases he with hm | hm
      · exact Or.inr (Or.inl ⟨e, hm, hc⟩)
      · exact Or.inr (Or.inr ⟨e, hm, hc⟩)

/-! ### Full characterization of the best-candidate scan -/

theorem selectBest_some_sound {p : AtlasPage H} {size : UVec3} :
    ∀ (pts : List UVec3) (b b' : UVec3 × Nat × List H),
      AtlasPage.selectBest p size (some b) pts = some b' →
      (b' = b ∧ ∀ q' ∈ pts, ∀ d' ev', p.measure q' size = some (d', ev') →
          ¬ AtlasPage.lexLt (ev'.length, d') (b.2.2.length, b.2.1)) ∨
      (p.measure b'.1 size = some (b'.2.1, b'.2.2) ∧
        AtlasPage.lexLt (b'.2.2.length, b'.2.1) (b.2.2.length, b.2.1) ∧
        ∃ pre post, pts = pre ++ b'.1 :: post ∧
          (∀ q' ∈ pre, ∀ d' ev', p.measure q' size = some (d', ev') →
            AtlasPage.lexLt (b'.2.2.length, b'.2.1) (ev'.length, d')) ∧
          (∀ q' ∈ post, ∀ d' ev', p.measure q' size = some (d', ev') →
            ¬ AtlasPage.lexLt (ev'.length, d') (b'.2.2.length, b'.2.1))) := by
  intro pts
  induction pts with
  | nil =>
    intro b b' hsel
    left
    refine ⟨(Option.some.inj hsel).symm, ?_⟩
    intro q' hq'
    cases hq'
  | cons x rest ih =>
    intro b b' hsel
    rw [AtlasPage.selectBest] at hsel
    rcases hmx : p.measure x size with _ | ⟨dx, evx⟩
    · have hstep : AtlasPage.searchStep p size (some b) x = some b := by
        unfold AtlasPage.searchStep
        rw [hmx]
      rw [hstep] at hsel
      rcases ih b b' hsel with ⟨rfl, hall⟩ | ⟨hmes, hlt, pre, post, heq, hpre, hpost⟩
      · left
        refine ⟨rfl, ?_⟩
        intro q' hq' d' ev' hm'
        rcases List.mem_cons.1 hq' with rfl | hmem
        · rw [hmx] at hm'
          cases hm'
        · exact hall q' hmem d' ev' hm'
      · right
        refine ⟨hmes, hlt, x :: pre, post, by rw [heq, List.cons_append], ?_, hpost⟩
        intro q' hq' d' ev' hm'
        rcases List.mem_cons.1 hq' with rfl | hmem
        · rw [hmx] at hm'
          cases hm'
        · exact hpre q' hmem d' ev' hm'
    · obtain ⟨bq, bd, bev⟩ := b
      by_cases hlt : AtlasPage.lexLt (evx.length, dx) (bev.length, bd)
      · have hstep : AtlasPage.searchStep p size (some (bq, bd, bev)) x =
            some (x, dx, evx) := by
          unfold AtlasPage.searchStep
          rw [hmx]
          show (if AtlasPage.lexLt (evx.length, dx) (bev.length, bd)
            then some (x, dx, evx) else some (bq, bd, bev)) = some (x, dx, evx)
          rw [if_pos hlt]
        rw [hstep] at hsel
        rcases ih (x, dx, evx) b' hsel with ⟨rfl, hall⟩ |
          ⟨hmes, hlt2, pre, post, heq, hpre, hpost⟩
        · right
          exact ⟨hmx, hlt, [], rest, rfl, fun q' hq' => absurd hq' (List.not_mem_nil q'),
            hall⟩
        · right
          refine ⟨hmes, lexLt_trans hlt2 hlt, x :: pre, post,
            by rw [heq, List.cons_append], ?_, hpost⟩
          intro q' hq' d' ev' hm'
          rcases List.mem_cons.1 hq' with rfl | hmem
          · rw [hmx] at hm'
            obtain ⟨rfl, rfl⟩ : d' = dx ∧ ev' = evx := by
              have := Option.some.inj hm'
              exact ⟨congrArg Prod.fst this.symm, congrArg Prod.snd this.symm⟩
            exact hlt2
          · exact hpre q' hmem d' ev' hm'
      · have hstep : AtlasPage.searchStep p size (some (bq, bd, bev)) x =
            some (bq, bd, bev) := by
          unfold AtlasPage.searchStep
          rw [hmx]
          show (if AtlasPage.lexLt (evx.length, dx) (bev.length, bd)
            then some (x, dx, evx) else some (bq, bd, bev)) = some (bq, bd, bev)
          rw [if_neg hlt]
        rw [hstep] at hsel
        rcases ih (bq, bd, bev) b' hsel with ⟨rfl, hall⟩ |
          ⟨hmes, hlt2, pre, post, heq, hpre, hpost⟩
        · left
          refine ⟨rfl, ?_⟩
          intro q' hq' d' ev' hm'
          rcases List.mem_cons.1 hq' with rfl | hmem
          · rw [hmx] at hm'
            obtain ⟨rfl, rfl⟩ : d' = dx ∧ ev' = evx := by
              have := Option.some.inj hm'
              exact ⟨congrArg Prod.fst this.symm, congrArg Prod.snd this.symm⟩
            exact hlt
          · exact hall q' hmem d' ev' hm'
        · right
          refine ⟨hmes, hlt2, x :: pre, post, by rw [heq, List.cons_append], ?_, hpost⟩
          intro q' hq' d' ev' hm'
          rcases List.mem_cons.1 hq' with rfl | hmem
          · rw [hmx] at hm'
            obtain ⟨rfl, rfl⟩ : d' = dx ∧ ev' = evx := by
              have := Option.some.inj hm'
              exact ⟨congrArg Prod.fst this.symm, congrArg Prod.snd this.symm⟩
            exact lexLt_of_lexLt_of_not_lexLt hlt2 hlt
          · exact hpre q' hmem d' ev' hm'

theorem selectBest_none_sound {p : AtlasPage H} {size : UVec3} :
    ∀ (pts : List UVec3) (b' : UVec3 × Nat × List H),
      AtlasPage.selectBest p size none pts = some b' →
      p.measure b'.1 size = some (b'.2.1, b'.2.2) ∧
      ∃ pre post, pts = pre ++ b'.1 :: post ∧
        (∀ q' ∈ pre, ∀ d' ev', p.measure q' size = some (d', ev') →
          AtlasPage.lexLt (b'.2.2.length, b'.2.1) (ev'.length, d')) ∧
        (∀ q' ∈ post, ∀ d' ev', p.measure q' size = some (d', ev') →
          ¬ AtlasPage.lexLt (ev'.length, d') (b'.2.2.length, b'.2.1)) := by
  intro pts
  induction pts with
  | nil =>
    intro b' hsel
    cases hsel
  | cons x rest ih =>
    intro b' hsel
    rw [AtlasPage.selectBest] at hsel
    rcases hmx : p.measure x size with _ | ⟨dx, evx⟩
    · have hstep : AtlasPage.searchStep p size none x = none := by
        unfold AtlasPage.searchStep
        rw [hmx]
      rw [hstep] at hsel
      obtain ⟨hmes, pre, post, heq, hpre, hpost⟩ := ih b' hsel
      refine ⟨hmes, x :: pre, post, by rw [heq, List.cons_append], ?_, hpost⟩
      intro q' hq' d' ev' hm'
      rcases List.mem_cons.1 hq' with rfl | hmem
      · rw [hmx] at hm'
        cases hm'
      · exact hpre q' hmem d' ev' hm'
    · have hstep : AtlasPage.searchStep p size none x = some (x, dx, evx) := by
        unfold AtlasPage.searchStep
        rw [hmx]
      rw [hstep] at hsel
      rcases selectBest_some_sound rest (x, dx, evx) b' hsel with ⟨rfl, hall⟩ |
        ⟨hmes, hlt2, pre, post, heq, hpre, hpost⟩
      · exact ⟨hmx, [], rest, rfl, fun q' hq' => absurd hq' (List.not_mem_nil q'), hall⟩
      · refine ⟨hmes, x :: pre, post, by rw [heq, List.cons_append], ?_, hpost⟩
        intro q' hq' d' ev' hm'
        rcases List.mem_cons.1 hq' with rfl | hmem
        · rw [hmx] at hm'
          obtain ⟨rfl, rfl⟩ : d' = dx ∧ ev' = evx := by
            have := Option.some.inj hm'
            exact ⟨congrArg Prod.fst this.symm, congrArg Prod.snd this.symm⟩
          exact hlt2
        · exact hpre q' hmem d' ev' hm'

/-- Claim C8: when `insert` performs a placement search, the candidate list
is exactly the origin together with, for every entry in the live and in the
dead generation, the three points `position + size·x̂`, `position + size·ŷ`,
`position + size·ẑ`; and a committed placement is a feasible candidate whose
(casualty count, boundary-distance cost) pair is lexicographically minimal
over all feasible candidates — the earliest candidate in evaluation order
winning ties — whose casualty list consists exactly of the dead entries
overlapping the chosen box, all of which are then purged at commit. -/
theorem claim_C8 {p : AtlasPage H} {h : H} {size : UVec3}
    (hlive : mapGet p.live_items h = none) (hdead : mapGet p.dead_items h = none) :
    (∀ q : UVec3, q ∈ AtlasPage.insertPoints p ↔
      (q = UVec3.ZERO ∨ ∃ e ∈ entries p,
        q = e.2.position + ⟨e.2.size.x, 0, 0⟩ ∨
        q = e.2.position + ⟨0, e.2.size.y, 0⟩ ∨
        q = e.2.position + ⟨0, 0, e.2.size.z⟩)) ∧
    (∀ pos p', p.insert h size = some (Slot.New pos, p') →
      ∃ d ev,
        p.measure pos size = some (d, ev) ∧
        p'.live_items = mapInsert h ⟨size, pos⟩ p.live_items ∧
        (∀ h', h' ∈ ev ↔ ∃ e ∈ p.dead_items, e.1 = h' ∧
          boxesIntersect ⟨size, pos⟩ e.2) ∧
        (∀ q ∈ AtlasPage.insertPoints p, ∀ d' ev',
          p.measure q size = some (d', ev') →
            ¬ AtlasPage.lexLt (ev'.length, d') (ev.length, d)) ∧
        ∃ pre post, AtlasPage.insertPoints p = pre ++ pos :: post ∧
          (∀ q ∈ pre, ∀ d' ev', p.measure q size = some (d', ev') →
            AtlasPage.lexLt (ev.length, d) (ev'.length, d'))) := by
  constructor
  · intro q
    exact mem_insertPoints_iff
  · intro pos p' hins
    rw [insert_of_fresh hlive hdead] at hins
    unfold AtlasPage.searchAndCommit at hins
    split at hins
    · next q0 d0 ev0 hsel =>
      simp only [Option.some.injEq, Prod.mk.injEq, Slot.New.injEq] at hins
      obtain ⟨rfl, rfl⟩ := hins
      obtain ⟨hmes, pre, post, heq, hpre, hpost⟩ := selectBest_none_sound _ _ hsel
      have hmes2 : p.measure q0 size = some (d0, ev0) := hmes
      have heq2 : AtlasPage.insertPoints p = pre ++ q0 :: post := heq
      have hpre2 : ∀ q' ∈ pre, ∀ d' ev', p.measure q' size = some (d', ev') →
          AtlasPage.lexLt (ev0.length, d0) (ev'.length, d') := hpre
      have hpost2 : ∀ q' ∈ post, ∀ d' ev', p.measure q' size = some (d', ev') →
          ¬ AtlasPage.lexLt (ev'.length, d') (ev0.length, d0) := hpost
      refine ⟨d0, ev0, hmes2, rfl, measure_evict_iff hmes2, ?_, pre, post, heq2, hpre2⟩
      intro q hq d' ev' hm'
      rw [heq2] at hq
      rcases List.mem_append.1 hq with hm | hm
      · exact lexLt_asymm (hpre2 q hm d' ev' hm')
      · rcases List.mem_cons.1 hm with rfl | hm2
        · rw [hmes2] at hm'
          obtain ⟨rfl, rfl⟩ : d' = d0 ∧ ev' = ev0 := by
            have := Option.some.inj hm'
            exact ⟨congrArg Prod.fst this.symm, congrArg Prod.snd this.symm⟩
          exact lexLt_irrefl _
        · exact hpost2 q hm2 d' ev' hm'
    · simp at hins

theorem claim_C8_witness :
    (∀ q : UVec3, q ∈ AtlasPage.insertPoints pageLiveDead ↔
      (q = UVec3.ZERO ∨ ∃ e ∈ entries pageLiveDead,
        q = e.2.position + ⟨e.2.size.x, 0, 0⟩ ∨
        q = e.2.position + ⟨0, e.2.size.y, 0⟩ ∨
        q = e.2.position + ⟨0, 0, e.2.size.z⟩)) ∧
    (∀ pos p', pageLiveDead.insert 5 ⟨2, 2, 2⟩ = some (Slot.New pos, p') →
      ∃ d ev,
        pageLiveDead.measure pos ⟨2, 2, 2⟩ = some (d, ev) ∧
        p'.live_items = mapInsert 5 ⟨⟨2, 2, 2⟩, pos⟩ pageLiveDead.live_items ∧
        (∀ h', h' ∈ ev ↔ ∃ e ∈ pageLiveDead.dead_items, e.1 = h' ∧
          boxesIntersect ⟨⟨2, 2, 2⟩, pos⟩ e.2) ∧
        (∀ q ∈ AtlasPage.insertPoints pageLiveDead, ∀ d' ev',
          pageLiveDead.measure q ⟨2, 2, 2⟩ = some (d', ev') →
            ¬ AtlasPage.lexLt (ev'.length, d') (ev.length, d)) ∧
        ∃ pre post, AtlasPage.insertPoints pageLiveDead = pre ++ pos :: post ∧
          (∀ q ∈ pre, ∀ d' ev', pageLiveDead.measure q ⟨2, 2, 2⟩ = some (d', ev') →
            AtlasPage.lexLt (ev.length, d) (ev'.length, d'))) :=
  claim_C8 (by decide) (by decide)

end Atlas3d
